import Mathlib

/-!
Shallow embedding of the speaking-claude repository.

The Python sources embedded here are:
  * `stream_parser.py` — the `StreamParser` class: `parse_line`, the event
    handlers, `_flush_complete_sentences` and `_extract_speakable_text`;
  * `battle_royale.py` — `BattleArena._apply_damage`, `_restore_hp`,
    `_declare_winner`, `_llm_generate`, `_generate_critique`, `_score_damage`,
    and `main`'s argument handling;
  * `speaking_claude.py` — `main`'s argument handling.

Python strings are modelled as Lean `String` / `List Char`.  Whitespace
(`str.strip`, the regex class `\s`) is modelled by the six ASCII whitespace
characters; non-ASCII whitespace, non-ASCII `\w` word characters and non-ASCII
decimal digits accepted by Python's `int` are not modelled.  `json.loads` is
modelled by a recursive-descent reader of the JSON grammar Python's `json`
module accepts (including the `NaN` / `Infinity` constants), returning `none`
where Python raises `JSONDecodeError`.  Numbers keep their source lexeme: no
claim inspects a numeric JSON value.  Fallible attribute accesses (`.get` on a
non-dict, iteration over a non-iterable) are modelled by `PyErr` values.
-/

/-- The ASCII whitespace characters of Python's `str.strip` and of the regex
class `\s` (the non-ASCII members of those classes are not modelled). -/
def isPySpace (c : Char) : Bool :=
  c = ' ' || c = '\t' || c = '\n' || c = '\r' || c = '\x0b' || c = '\x0c'

/-- Python `str.strip()` on a list of characters: drop leading and trailing
whitespace. -/
def pyStripList (cs : List Char) : List Char :=
  ((cs.dropWhile isPySpace).reverse.dropWhile isPySpace).reverse

/-- Python `str.strip()`. -/
def pyStrip (s : String) : String :=
  String.mk (pyStripList s.data)

/-- Python `str.strip(chars)`: drop leading and trailing characters that are
members of `chars`. -/
def pyStripChars (s : String) (chars : List Char) : String :=
  String.mk (((s.data.dropWhile (chars.contains ·)).reverse.dropWhile
    (chars.contains ·)).reverse)

/-- Index of the first occurrence of `pat` in `cs` (Python `str.find` /
leftmost regex match of a literal). -/
def findSub (cs pat : List Char) : Option Nat :=
  match cs with
  | [] => if pat.isEmpty then some 0 else none
  | _ :: t => if pat.isPrefixOf cs then some 0 else (findSub t pat).map (· + 1)

/-- Python `str.rfind(pat, 0, stop)`: the largest index `i` with
`i + pat.length ≤ stop` at which `pat` occurs in `cs`, as an `Option`
(Python returns `-1` when there is none). -/
def rfindWithin (cs pat : List Char) (stop : Nat) : Option Nat :=
  ((List.range stop).filter
    (fun i => decide (i + pat.length ≤ stop) && pat.isPrefixOf (cs.drop i))).getLast?

/-- A JSON value as `json.loads` produces it (Python objects: `None`, `bool`,
numbers, `str`, `list`, `dict`).  A number keeps its source lexeme. -/
inductive JValue where
  | null
  | bool (b : Bool)
  | num (lex : String)
  | str (s : String)
  | arr (elems : List JValue)
  | obj (entries : List (String × JValue))
deriving Repr, BEq

/-- Python exceptions surfaced by the embedded code. -/
inductive PyErr where
  | attributeError
  | typeError
deriving Repr, BEq, DecidableEq

/-- Insertion into a Python dict under construction: a duplicate key keeps its
first position but takes the new value. -/
def insertEntry (kvs : List (String × JValue)) (k : String) (v : JValue) :
    List (String × JValue) :=
  match kvs with
  | [] => [(k, v)]
  | (k0, v0) :: rest =>
    if k0 = k then (k0, v) :: rest else (k0, v0) :: insertEntry rest k v

/-- JSON whitespace (RFC 8259, as in Python's `json` lexer). -/
def isJsonWs (c : Char) : Bool :=
  c = ' ' || c = '\t' || c = '\n' || c = '\r'

/-- Skip JSON whitespace. -/
def skipWs (cs : List Char) : List Char :=
  cs.dropWhile isJsonWs

/-- Value of a hexadecimal digit. -/
def hexVal (c : Char) : Option Nat :=
  if '0' ≤ c ∧ c ≤ '9' then some (c.toNat - '0'.toNat)
  else if 'a' ≤ c ∧ c ≤ 'f' then some (c.toNat - 'a'.toNat + 10)
  else if 'A' ≤ c ∧ c ≤ 'F' then some (c.toNat - 'A'.toNat + 10)
  else none

/-- Decode the body of a JSON string literal after its opening quote.  Escapes
follow the JSON grammar; a control character below U+0020 is rejected (Python's
strict default).  A high/low surrogate pair in `\uXXXX` escapes is combined;
a lone surrogate (which Lean's `Char` cannot hold) is replaced by U+0000. -/
def readJString (fuel : Nat) (cs : List Char) : Option (List Char × List Char) :=
  match fuel, cs with
  | 0, _ => none
  | _, [] => none
  | fuel + 1, c :: rest =>
    if c = '"' then some ([], rest)
    else if c = '\\' then
      match rest with
      | [] => none
      | e :: rest2 =>
        let plain (d : Char) (tl : List Char) : Option (List Char × List Char) :=
          (readJString fuel tl).map (fun p => (d :: p.1, p.2))
        if e = '"' then plain '"' rest2
        else if e = '\\' then plain '\\' rest2
        else if e = '/' then plain '/' rest2
        else if e = 'b' then plain '\x08' rest2
        else if e = 'f' then plain '\x0c' rest2
        else if e = 'n' then plain '\n' rest2
        else if e = 'r' then plain '\r' rest2
        else if e = 't' then plain '\t' rest2
        else if e = 'u' then
          match rest2 with
          | h1 :: h2 :: h3 :: h4 :: rest3 =>
            match hexVal h1, hexVal h2, hexVal h3, hexVal h4 with
            | some a, some b, some c2, some d =>
              let n := ((a * 16 + b) * 16 + c2) * 16 + d
              if 0xD800 ≤ n ∧ n ≤ 0xDBFF then
                match rest3 with
                | '\\' :: 'u' :: g1 :: g2 :: g3 :: g4 :: rest4 =>
                  match hexVal g1, hexVal g2, hexVal g3, hexVal g4 with
                  | some a2, some b2, some c3, some d2 =>
                    let m := ((a2 * 16 + b2) * 16 + c3) * 16 + d2
                    if 0xDC00 ≤ m ∧ m ≤ 0xDFFF then
                      let code := 0x10000 + (n - 0xD800) * 0x400 + (m - 0xDC00)
                      plain (Char.ofNat code) rest4
                    else plain (Char.ofNat 0) rest3
                  | _, _, _, _ => plain (Char.ofNat 0) rest3
                | _ => plain (Char.ofNat 0) rest3
              else plain (Char.ofNat n) rest3
            | _, _, _, _ => none
          | _ => none
        else none
    else if c.toNat < 0x20 then none
    else (readJString fuel rest).map (fun p => (c :: p.1, p.2))

/-- Lex the digits of a JSON number. -/
def readDigits (cs : List Char) : List Char × List Char :=
  (cs.takeWhile Char.isDigit, cs.dropWhile Char.isDigit)

/-- Lex a JSON number starting at `cs` (sign already not consumed); returns the
lexeme.  Follows the RFC 8259 grammar: `int` part `0` or nonzero-led digits,
optional fraction, optional exponent. -/
def readNumber (cs : List Char) : Option (List Char × List Char) :=
  let (sign, cs1) :=
    match cs with
    | '-' :: t => (['-'], t)
    | _ => (([] : List Char), cs)
  match cs1 with
  | [] => none
  | d :: _ =>
    if ¬ d.isDigit then none
    else
      let (intPart, cs2) := readDigits cs1
      -- leading zero may not be followed by more digits
      if intPart.length > 1 ∧ intPart.headI = '0' then none
      else
        let (fracPart, cs3) :=
          match cs2 with
          | '.' :: t =>
            let (ds, r) := readDigits t
            if ds.isEmpty then ([], cs2) else ('.' :: ds, r)
          | _ => ([], cs2)
        -- a dot with no digits after it is a parse error, not a bare int
        match cs2, fracPart with
        | '.' :: _, [] => none
        | _, _ =>
          let (expPart, cs4) :=
            match cs3 with
            | e :: t =>
              if e = 'e' ∨ e = 'E' then
                match t with
                | s :: t2 =>
                  if s = '+' ∨ s = '-' then
                    let (ds, r) := readDigits t2
                    if ds.isEmpty then ([], cs3) else (e :: s :: ds, r)
                  else
                    let (ds, r) := readDigits t
                    if ds.isEmpty then ([], cs3) else (e :: ds, r)
                | [] => ([], cs3)
              else ([], cs3)
            | [] => ([], cs3)
          -- an e with no digits after it is a parse error
          match cs3, expPart with
          | e :: _, [] =>
            if e = 'e' ∨ e = 'E' then none
            else some (sign ++ intPart ++ fracPart, cs3)
          | _, _ => some (sign ++ intPart ++ fracPart ++ expPart, cs4)

mutual

/-- Read one JSON value (leading whitespace allowed), per the grammar Python's
`json.loads` accepts: `null`, `true`, `false`, the constants `NaN`,
`Infinity`, `-Infinity`, numbers, strings, arrays, objects. -/
def readValue (fuel : Nat) (cs : List Char) : Option (JValue × List Char) :=
  match fuel with
  | 0 => none
  | fuel + 1 =>
    let cs := skipWs cs
    match cs with
    | [] => none
    | c :: _ =>
      if "null".data.isPrefixOf cs then some (.null, cs.drop 4)
      else if "true".data.isPrefixOf cs then some (.bool true, cs.drop 4)
      else if "false".data.isPrefixOf cs then some (.bool false, cs.drop 5)
      else if "NaN".data.isPrefixOf cs then some (.num "NaN", cs.drop 3)
      else if "Infinity".data.isPrefixOf cs then some (.num "Infinity", cs.drop 8)
      else if "-Infinity".data.isPrefixOf cs then some (.num "-Infinity", cs.drop 9)
      else if c = '"' then
        match readJString fuel (cs.drop 1) with
        | some (body, rest) => some (.str (String.mk body), rest)
        | none => none
      else if c = '[' then readArrayItems fuel (skipWs (cs.drop 1)) true
      else if c = '{' then readObjectItems fuel (skipWs (cs.drop 1)) true []
      else
        match readNumber cs with
        | some (lex, rest) => some (.num (String.mk lex), rest)
        | none => none

/-- Read the items of an array after `[` (`first` marks that no item has been
read yet, so `]` may follow immediately). -/
def readArrayItems (fuel : Nat) (cs : List Char) (first : Bool) :
    Option (JValue × List Char) :=
  match fuel with
  | 0 => none
  | fuel + 1 =>
    match cs with
    | ']' :: rest => if first then some (.arr [], rest) else none
    | _ =>
      match readValue fuel cs with
      | none => none
      | some (v, rest) =>
        match readArrayRest fuel (skipWs rest) [v] with
        | some (vs, rest2) => some (.arr vs, rest2)
        | none => none

/-- After one or more array items: `]` ends, `,` continues. -/
def readArrayRest (fuel : Nat) (cs : List Char) (acc : List JValue) :
    Option (List JValue × List Char) :=
  match fuel with
  | 0 => none
  | fuel + 1 =>
    match cs with
    | ']' :: rest => some (acc, rest)
    | ',' :: rest =>
      match readValue fuel rest with
      | some (v, rest2) => readArrayRest fuel (skipWs rest2) (acc ++ [v])
      | none => none
    | _ => none

/-- Read the members of an object after `{`. -/
def readObjectItems (fuel : Nat) (cs : List Char) (first : Bool)
    (acc : List (String × JValue)) : Option (JValue × List Char) :=
  match fuel with
  | 0 => none
  | fuel + 1 =>
    match cs with
    | '}' :: rest => if first then some (.obj acc, rest) else none
    | '"' :: rest =>
      match readJString fuel rest with
      | none => none
      | some (key, rest2) =>
        match skipWs rest2 with
        | ':' :: rest3 =>
          match readValue fuel rest3 with
          | none => none
          | some (v, rest4) =>
            let acc := insertEntry acc (String.mk key) v
            match skipWs rest4 with
            | ',' :: rest5 => readObjectItems fuel (skipWs rest5) false acc
            | '}' :: rest5 => some (.obj acc, rest5)
            | _ => none
        | _ => none
    | _ => none

end

/-- `json.loads`: the whole string must be one JSON document (surrounding
whitespace allowed); `none` where Python raises `JSONDecodeError`. -/
def loads (s : String) : Option JValue :=
  match readValue (2 * s.data.length + 8) s.data with
  | some (v, rest) => if (skipWs rest).isEmpty then some v else none
  | none => none


/-- Python `d.get(k, default)`; calling `.get` on a non-dict value raises
`AttributeError`. -/
def dictGet (v : JValue) (k : String) (dflt : JValue) : Except PyErr JValue :=
  match v with
  | .obj kvs => .ok ((kvs.lookup k).getD dflt)
  | _ => .error .attributeError

/-- Whether a number lexeme denotes zero: every digit of its mantissa (the part
before any exponent) is `0`.  `NaN` and `Infinity` contain other letters and so
count as nonzero. -/
def numLexZero (lex : String) : Bool :=
  (lex.data.takeWhile (fun c => !(c = 'e' || c = 'E'))).all
    (fun c => c = '0' || c = '-' || c = '+' || c = '.')

/-- Python truthiness of a JSON value. -/
def isTruthy : JValue → Bool
  | .null => false
  | .bool b => b
  | .num lex => !numLexZero lex
  | .str s => !s.data.isEmpty
  | .arr xs => !xs.isEmpty
  | .obj kvs => !kvs.isEmpty

/-- Python `for x in v`: a list yields its elements, a str its characters,
a dict its keys; iterating any other value raises `TypeError`. -/
def pyIterVals : JValue → Except PyErr (List JValue)
  | .arr xs => .ok xs
  | .str s => .ok (s.data.map fun c => .str (String.mk [c]))
  | .obj kvs => .ok (kvs.map fun kv => .str kv.1)
  | _ => .error .typeError

/-! ## `stream_parser.py` -/

/-- The kinds of speakable content (`ContentType`). -/
inductive ContentType where
  | narration
  | action
  | reaction
deriving Repr, BEq, DecidableEq

/-- One unit of content ready to be spoken (`SpeakableContent`). -/
structure SpeakableContent where
  text : String
  content_type : ContentType
  priority : Int
deriving Repr, BEq, DecidableEq

/-- The mutable fields of a `StreamParser` (`__init__`): the sentence buffer
and the tool recorded by the last `tool_use` block. -/
structure ParserState where
  text_buffer : List Char
  current_tool : Option JValue
deriving Repr, BEq

/-- A fresh `StreamParser()`. -/
def initState : ParserState := ⟨[], none⟩

/-- The output of one generator call: the events it yielded, and the exception
it raised mid-iteration, if any. -/
structure GenOut where
  events : List SpeakableContent
  err : Option PyErr
deriving Repr, BEq

/-- `StreamParser.TOOL_ACTIONS`. -/
def TOOL_ACTIONS : List (String × String) :=
  [("Read", "Reading"), ("Write", "Writing"), ("Edit", "Editing"),
   ("Bash", "Running"), ("Glob", "Searching for"), ("Grep", "Searching in"),
   ("Task", "Starting"), ("WebFetch", "Fetching"),
   ("WebSearch", "Searching the web for")]

/-- `TOOL_ACTIONS.get(tool_name, f"Using {tool_name}")`.  A list or dict tool
name is unhashable and raises `TypeError` inside `.get`; the f-string applied
to a numeric tool name is approximated by the number's lexeme. -/
def toolActionOf (nameV : JValue) : Except PyErr String :=
  match nameV with
  | .str n => .ok ((TOOL_ACTIONS.lookup n).getD ("Using " ++ n))
  | .null => .ok "Using None"
  | .bool b => .ok ("Using " ++ (if b then "True" else "False"))
  | .num lex => .ok ("Using " ++ lex)
  | _ => .error .typeError

/-- A code-fence marker. -/
def fence : List Char := ['`', '`', '`']

/-- `re.sub(r'```[\s\S]*?```', '', text)`: delete the non-overlapping, lazily
matched fence pairs, scanning left to right.  When an opening fence has no
closing fence after it, the regex has no further match and the rest stays. -/
def removeFences (fuel : Nat) (cs : List Char) : List Char :=
  match fuel with
  | 0 => cs
  | fuel + 1 =>
    match findSub cs fence with
    | none => cs
    | some i =>
      let opened := cs.drop (i + 3)
      match findSub opened fence with
      | none => cs
      | some j => cs.take i ++ removeFences fuel (opened.drop (j + 3))

/-- The character class `[a-zA-Z0-9\s]` of the alphanumeric-ratio filter. -/
def isSpeakChar (c : Char) : Bool :=
  ('a' ≤ c && c ≤ 'z') || ('A' ≤ c && c ≤ 'Z') || ('0' ≤ c && c ≤ '9') ||
    isPySpace c

/-- The character class `[\w/\\.]` of the file-path filter (ASCII `\w`). -/
def isWordPathChar (c : Char) : Bool :=
  ('a' ≤ c && c ≤ 'z') || ('A' ≤ c && c ≤ 'Z') || ('0' ≤ c && c ≤ '9') ||
    c = '_' || c = '/' || c = '\\' || c = '.'

/-- The extensions of `re.match(r'^[\w/\\.]+\.(py|js|ts|json|md|txt|yaml|yml)$', text)`. -/
def sourceExts : List (List Char) :=
  ["py", "js", "ts", "json", "md", "txt", "yaml", "yml"].map String.data

/-- Whether `text` matches `^[\w/\\.]+\.(py|js|ts|json|md|txt|yaml|yml)$`:
a nonempty run of word/path characters, a dot and a known extension. -/
def isSourceFileName (cs : List Char) : Bool :=
  sourceExts.any fun ext =>
    decide (ext.length + 2 ≤ cs.length) &&
    ('.' :: ext).isSuffixOf cs &&
    (cs.take (cs.length - (ext.length + 1))).all isWordPathChar

/-- The length limiting step of `_extract_speakable_text`: over 300 characters,
cut at the last `'. '` before position 300 when that leaves more than 100
characters, else hard-cut at 297 and append `"..."`. -/
def speakTruncate (t3 : List Char) : List Char :=
  if 300 < t3.length then
    match rfindWithin t3 ['.', ' '] 300 with
    | some bp =>
      if 100 < bp then t3.take (bp + 1) else t3.take 297 ++ ['.', '.', '.']
    | none => t3.take 297 ++ ['.', '.', '.']
  else t3

/-- Whether the list starts with the character `c` (Python `startswith` on a
one-character prefix; empty text starts with nothing). -/
def headIs (cs : List Char) (c : Char) : Bool :=
  match cs with
  | c0 :: _ => c0 = c
  | [] => false

/-- The rebinding `if "```" in text: text = re.sub(r'```[\s\S]*?```', '', text)`. -/
def fenceCleaned (t1 : List Char) : List Char :=
  if (findSub t1 fence).isSome then removeFences (t1.length + 1) t1 else t1

/-- The filtering pipeline of `_extract_speakable_text` after the initial
strip: fence edge checks, fence-pair removal, JSON-ish and file-path and
alphanumeric-ratio rejections; returns the re-stripped survivor.  The
alphanumeric-ratio comparison `count / len(text) < 0.5` is written
`2 * count < len` (exact for every realistic length). -/
def speakFilter (t1 : List Char) : Option (List Char) :=
  if fence.isPrefixOf t1 || fence.isSuffixOf t1 then none
  else if headIs (fenceCleaned t1) '{' || headIs (fenceCleaned t1) '[' then none
  else if (pyStripList (fenceCleaned t1)).isEmpty then none
  else if isSourceFileName (fenceCleaned t1) then none
  else if 2 * ((fenceCleaned t1).filter isSpeakChar).length < (fenceCleaned t1).length then none
  else some (pyStripList (fenceCleaned t1))

/-- `StreamParser._extract_speakable_text`. -/
def extract_speakable_text (text : String) : Option String :=
  if text.data.isEmpty || (pyStripList text.data).isEmpty then none
  else
    match speakFilter (pyStripList text.data) with
    | none => none
    | some t3 =>
      let t4 := speakTruncate t3
      if t4.isEmpty then none else some (String.mk t4)

/-- Index just past the first match of the regex `([.!?])\s+`: sentence-ending
punctuation followed by a maximal nonempty run of whitespace. -/
def findSentenceEnd (cs : List Char) : Option Nat :=
  match cs with
  | [] => none
  | c :: rest =>
    if (c = '.' || c = '!' || c = '?') &&
        (match rest with
         | c2 :: _ => isPySpace c2
         | [] => false) then
      some (1 + (rest.takeWhile isPySpace).length)
    else (findSentenceEnd rest).map (· + 1)

/-- The loop body of `_flush_complete_sentences`: split complete sentences off
the front of the buffer, extracting speakable text from each. -/
def flushAux : Nat → List Char → List Char × List SpeakableContent
  | 0, buf => (buf, [])
  | fuel + 1, buf =>
    match findSentenceEnd buf with
    | none => (buf, [])
    | some endPos =>
      let sentence := pyStripList (buf.take endPos)
      let evs :=
        match extract_speakable_text (String.mk sentence) with
        | some sp => [⟨sp, .narration, 1⟩]
        | none => []
      let (buf2, evs2) := flushAux fuel (buf.drop endPos)
      (buf2, evs ++ evs2)

/-- `StreamParser._flush_complete_sentences`. -/
def flush_complete_sentences (st : ParserState) :
    ParserState × List SpeakableContent :=
  let (buf, evs) := flushAux (st.text_buffer.length + 1) st.text_buffer
  ({ st with text_buffer := buf }, evs)

/-- The block loop of `_handle_assistant`: `text` blocks are candidate
narration.  `if not text or not text.strip()` returns `None` for falsy values
before `.strip()` can raise on a truthy non-string. -/
def assistantBlocks : List JValue → GenOut
  | [] => ⟨[], none⟩
  | block :: rest =>
    match dictGet block "type" .null with
    | .error e => ⟨[], some e⟩
    | .ok (.str s) =>
      if s = "text" then
        match dictGet block "text" (.str "") with
        | .error e => ⟨[], some e⟩
        | .ok textV =>
          if !isTruthy textV then assistantBlocks rest
          else
            match textV with
            | .str t =>
              match extract_speakable_text t with
              | some sp =>
                let out := assistantBlocks rest
                ⟨⟨sp, .narration, 1⟩ :: out.events, out.err⟩
              | none => assistantBlocks rest
            | _ => ⟨[], some .attributeError⟩
      else assistantBlocks rest
    | .ok _ => assistantBlocks rest

/-- `StreamParser._handle_assistant`. -/
def handle_assistant (event : JValue) : GenOut :=
  match dictGet event "message" (.obj []) with
  | .error e => ⟨[], some e⟩
  | .ok message =>
    match dictGet message "content" (.arr []) with
    | .error e => ⟨[], some e⟩
    | .ok content_blocks =>
      match pyIterVals content_blocks with
      | .error e => ⟨[], some e⟩
      | .ok blocks => assistantBlocks blocks

/-- `StreamParser._handle_content_block_start`. -/
def handle_content_block_start (st : ParserState) (event : JValue) :
    ParserState × GenOut :=
  match dictGet event "content_block" (.obj []) with
  | .error e => (st, ⟨[], some e⟩)
  | .ok content_block =>
    match dictGet content_block "type" .null with
    | .error e => (st, ⟨[], some e⟩)
    | .ok (.str s) =>
      if s = "tool_use" then
        match dictGet content_block "name" (.str "") with
        | .error e => (st, ⟨[], some e⟩)
        | .ok nameV =>
          let st := { st with current_tool := some nameV }
          match toolActionOf nameV with
          | .error e => (st, ⟨[], some e⟩)
          | .ok action => (st, ⟨[⟨action ++ "...", .action, 2⟩], none⟩)
      else (st, ⟨[], none⟩)
    | .ok _ => (st, ⟨[], none⟩)

/-- `StreamParser._handle_content_block_delta`. -/
def handle_content_block_delta (st : ParserState) (event : JValue) :
    ParserState × GenOut :=
  match dictGet event "delta" (.obj []) with
  | .error e => (st, ⟨[], some e⟩)
  | .ok delta =>
    match dictGet delta "type" .null with
    | .error e => (st, ⟨[], some e⟩)
    | .ok (.str s) =>
      if s = "text_delta" then
        match dictGet delta "text" (.str "") with
        | .error e => (st, ⟨[], some e⟩)
        | .ok (.str t) =>
          let st := { st with text_buffer := st.text_buffer ++ t.data }
          let (st2, evs) := flush_complete_sentences st
          (st2, ⟨evs, none⟩)
        | .ok _ => (st, ⟨[], some .typeError⟩)
      else (st, ⟨[], none⟩)
    | .ok _ => (st, ⟨[], none⟩)

/-- `StreamParser._handle_content_block_stop`. -/
def handle_content_block_stop (st : ParserState) (_event : JValue) :
    ParserState × GenOut :=
  let evs :=
    if !(pyStripList st.text_buffer).isEmpty then
      match extract_speakable_text (String.mk st.text_buffer) with
      | some sp => [⟨sp, .narration, 1⟩]
      | none => []
    else []
  (⟨[], none⟩, ⟨evs, none⟩)

/-- `StreamParser._handle_result`. -/
def handle_result (event : JValue) : GenOut :=
  match dictGet event "result" .null with
  | .error e => ⟨[], some e⟩
  | .ok result =>
    match dictGet event "is_error" .null with
    | .error e => ⟨[], some e⟩
    | .ok is_error0 =>
      let is_error :=
        match result with
        | .obj kvs =>
          if isTruthy is_error0 then is_error0
          else (kvs.lookup "is_error").getD .null
        | _ => is_error0
      if isTruthy is_error then
        ⟨[⟨"Hmm, that didn't work. Let me try something else.", .reaction, 3⟩],
          none⟩
      else ⟨[], none⟩

/-- `StreamParser._handle_event`: dispatch on the event-type label. -/
def handle_event (st : ParserState) (event : JValue) : ParserState × GenOut :=
  match dictGet event "type" .null with
  | .error e => (st, ⟨[], some e⟩)
  | .ok (.str s) =>
    if s = "assistant" then (st, handle_assistant event)
    else if s = "content_block_start" then handle_content_block_start st event
    else if s = "content_block_delta" then handle_content_block_delta st event
    else if s = "content_block_stop" then handle_content_block_stop st event
    else if s = "result" then (st, handle_result event)
    else (st, ⟨[], none⟩)
  | .ok _ => (st, ⟨[], none⟩)

/-- `StreamParser.parse_line`: strip the line, drop it when empty or when
`json.loads` fails, else dispatch. -/
def parse_line (st : ParserState) (line : String) :
    ParserState × List SpeakableContent × Option PyErr :=
  let stripped := pyStrip line
  if stripped.data.isEmpty then (st, [], none)
  else
    match loads stripped with
    | none => (st, [], none)
    | some event =>
      let (st2, out) := handle_event st event
      (st2, out.events, out.err)

/-- Feed a sequence of lines to one `StreamParser`, concatenating the yielded
events; a raised exception aborts the run as it would abort the caller's
iteration. -/
def run_lines : ParserState → List String → ParserState × List SpeakableContent × Option PyErr
  | st, [] => (st, [], none)
  | st, l :: ls =>
    match parse_line st l with
    | (st2, evs, some e) => (st2, evs, some e)
    | (st2, evs, none) =>
      let (st3, evs2, err) := run_lines st2 ls
      (st3, evs ++ evs2, err)

/-! ## `battle_royale.py` -/

/-- The health update of `BattleArena._apply_damage`:
`hp[name] = max(0, hp[name] - amount)`. -/
def apply_damage (hp : Int) (amount : Int) : Int :=
  max 0 (hp - amount)

/-- The health update of `BattleArena._restore_hp`:
`hp[name] = min(100, hp[name] + amount)`. -/
def restore_hp (hp : Int) (amount : Int) : Int :=
  min 100 (hp + amount)

/-- The lock-protected shared battle state relevant to winner selection: the
insertion-ordered health map `self.hp` and the `self.winner` field. -/
structure ArenaState where
  hp : List (String × Int)
  winner : Option String
deriving Repr, BEq, DecidableEq

/-- The scan of Python's `max(self.hp, key=self.hp.get)`: keep the running
best, replacing it only on a strictly greater value, so the first key holding
the maximum wins. -/
def maxKeyAux (best : String × Int) : List (String × Int) → String × Int
  | [] => best
  | (k, v) :: rest =>
    if best.2 < v then maxKeyAux (k, v) rest else maxKeyAux best rest

/-- `BattleArena._declare_winner`: pick the key with maximal health (first in
iteration order on ties), record it in `self.winner` and return it.  Python's
`max` raises `ValueError` on an empty dict, modelled by `none`. -/
def declare_winner (st : ArenaState) : Option String × ArenaState :=
  match st.hp with
  | [] => (none, st)
  | kv :: rest =>
    let winner_name := (maxKeyAux kv rest).1
    (some winner_name, { st with winner := some winner_name })

/-- `BattleArena._llm_generate`, as a function of the external call's outcome:
`none` stands for a call that timed out, raised, or exited non-zero; `some out`
for captured stdout of a zero-exit call.  Every failure path — including
output that is not JSON, not a dict, or whose `result` field is not a string —
yields `""` because the `except` clause swallows the exception. -/
def llm_generate (stdout? : Option String) : String :=
  match stdout? with
  | none => ""
  | some out =>
    match loads out with
    | some (.obj kvs) =>
      match (kvs.lookup "result").getD (.str "") with
      | .str s => pyStrip s
      | _ => ""
    | _ => ""

/-- `BattleArena._generate_critique`, as a function of the critic's and
creator's names and of what `_llm_generate` returned for the roast prompt. -/
def generate_critique (criticName creatorName : String) (llmOut : String) :
    String :=
  if criticName = creatorName then ""
  else
    let s := pyStripChars llmOut ['"', '\'']
    if s = "" then creatorName ++ "'s work is mid." else s

/-- Python `int(str)` on an already-stripped string: optional sign, then ASCII
decimal digits with single underscores allowed between digits; `none` where
`int` raises `ValueError`. -/
def pyIntDigits (acc : Nat) : List Char → Option Nat
  | [] => some acc
  | '_' :: d :: rest =>
    if d.isDigit then pyIntDigits (acc * 10 + (d.toNat - '0'.toNat)) rest
    else none
  | '_' :: [] => none
  | d :: rest =>
    if d.isDigit then pyIntDigits (acc * 10 + (d.toNat - '0'.toNat)) rest
    else none

/-- Python `int(str)`: strip whitespace, optional sign, digit run. -/
def pyIntOfStr (s : String) : Option Int :=
  let cs := pyStripList s.data
  let (sign, ds) :=
    match cs with
    | '+' :: t => ((1 : Int), t)
    | '-' :: t => ((-1 : Int), t)
    | _ => ((1 : Int), cs)
  match ds with
  | [] => none
  | d :: _ =>
    if d.isDigit then (pyIntDigits 0 ds).map (fun n => sign * n)
    else none

/-- `BattleArena._score_damage`, as a function of what `_llm_generate`
returned for the scoring prompt: `int(... .strip())`, clamped into 1–10 and
tripled; a `ValueError`/`TypeError` falls back to the documented default 9. -/
def score_damage (llmOut : String) : Int :=
  match pyIntOfStr (pyStrip llmOut) with
  | some score => max 1 (min 10 score) * 3
  | none => 9

/-! ## Command-line entry points -/

/-- What a `main` decides to do from `sys.argv`. -/
inductive CliOutcome where
  | usageExit (msg : List String) (code : Nat)
  | demo
  | battle (task : String)
  | speak (prompt : String)
deriving Repr, BEq, DecidableEq

/-- The usage message `battle_royale.py`'s `main` prints when invoked with no
arguments. -/
def battleUsageLines : List String :=
  ["🏆 BATTLE ROYALE - AI Agent Competition",
   "",
   "Usage:",
   "  battle_royale.py <task>     Run a competition (select fighters interactively)",
   "  battle_royale.py --demo     Test all voices",
   "",
   "Examples:",
   "  battle_royale.py 'create a landing page for a coffee shop'"]

/-- `battle_royale.py`'s `main`, up to the point where it hands off: with no
arguments it prints the usage message and calls `sys.exit(0)`. -/
def battle_royale_main (argv : List String) : CliOutcome :=
  if argv.length < 2 then .usageExit battleUsageLines 0
  else if argv.get? 1 = some "--demo" then .demo
  else .battle (String.intercalate " " (argv.drop 1))

/-- The usage message `speaking_claude.py`'s `main` prints when invoked with
no arguments. -/
def speakingUsageLines : List String :=
  ["Usage: python speaking_claude.py <prompt>",
   "Example: python speaking_claude.py 'Fix the bug in auth.py'",
   "\nEach run gets a random personality!"]

/-- `speaking_claude.py`'s `main`: with no arguments it prints the usage
message and calls `sys.exit(1)`. -/
def speaking_claude_main (argv : List String) : CliOutcome :=
  if argv.length < 2 then .usageExit speakingUsageLines 1
  else .speak (String.intercalate " " (argv.drop 1))

/-- The exit code of a `main` outcome, when it exits immediately. -/
def exitCodeOf : CliOutcome → Option Nat
  | .usageExit _ code => some code
  | _ => none

/-! ## Concurrency model of `_apply_damage` under `hp_lock`

`BattleArena._apply_damage` performs `self.hp[name] = max(0, self.hp[name] -
amount)` inside `with self.hp_lock`.  The model below is an interleaving
semantics for N worker threads each looping `reps` times over that critical
section on one shared health value: the read and the write of the
read-modify-write are separate steps, and the only synchronisation is that the
lock can be acquired only when free.  Mutual exclusion of the critical
sections is *derived*, not assumed.
-/

/-- Where one thread stands in its damage loop.  `remaining` counts the
iterations still to run, including the current one while inside the critical
section. -/
inductive Phase where
  | idle (remaining : Nat)
  | locked (remaining : Nat)
  | readDone (remaining : Nat) (reg : Int)
  | wroteDone (remaining : Nat)
deriving Repr, DecidableEq

/-- The shared state: the health value, the lock owner, and each thread's
phase. -/
structure ConcState where
  hp : Int
  owner : Option Nat
  threads : List Phase
deriving Repr, DecidableEq

/-- One interpreter step of some thread.  `acquire` blocks until the lock is
free; inside the critical section a thread reads the health value into a
register, writes back `max(0, reg - 1)` (one `_apply_damage(name, 1)`), and
releases, completing one iteration. -/
inductive LockStep : ConcState → ConcState → Prop where
  | acquire (s : ConcState) (i r : Nat) :
      s.owner = none → s.threads.get? i = some (.idle (r + 1)) →
      LockStep s ⟨s.hp, some i, s.threads.set i (.locked (r + 1))⟩
  | readHp (s : ConcState) (i r : Nat) :
      s.threads.get? i = some (.locked r) →
      LockStep s ⟨s.hp, s.owner, s.threads.set i (.readDone r s.hp)⟩
  | writeHp (s : ConcState) (i r : Nat) (reg : Int) :
      s.threads.get? i = some (.readDone r reg) →
      LockStep s ⟨apply_damage reg 1, s.owner, s.threads.set i (.wroteDone r)⟩
  | release (s : ConcState) (i r : Nat) :
      s.threads.get? i = some (.wroteDone (r + 1)) →
      LockStep s ⟨s.hp, none, s.threads.set i (.idle r)⟩

/-- The arena at the start of the commentary phase: full health, lock free,
`n` threads each with `reps` iterations to run. -/
def initConc (n reps : Nat) : ConcState :=
  ⟨100, none, List.replicate n (.idle reps)⟩

/-- The iterations a thread in the given phase has fully applied to the
health value (its pending write counts once written). -/
def performed (reps : Nat) : Phase → Nat
  | .idle r => reps - r
  | .locked r => reps - r
  | .readDone r _ => reps - r
  | .wroteDone r => reps - r + 1

/-- The remaining-iterations counter of a phase. -/
def remOf : Phase → Nat
  | .idle r => r
  | .locked r => r
  | .readDone r _ => r
  | .wroteDone r => r

/-- Whether a thread is outside the critical section. -/
def isIdle : Phase → Bool
  | .idle _ => true
  | _ => false

/-- Damage applications performed so far across all threads. -/
def totalPerf (reps : Nat) (l : List Phase) : Nat :=
  (l.map (performed reps)).sum

theorem totalPerf_set (reps : Nat) (l : List Phase) (i : Nat) (ph0 ph : Phase)
    (h : l.get? i = some ph0) :
    totalPerf reps (l.set i ph) + performed reps ph0
      = totalPerf reps l + performed reps ph := by
  induction l generalizing i with
  | nil => simp at h
  | cons a t ih =>
    cases i with
    | zero =>
      simp only [List.get?] at h
      injection h with h
      subst h
      simp [totalPerf, List.set]
      omega
    | succ i =>
      simp only [List.get?] at h
      have := ih i h
      simp only [totalPerf, List.set, List.map_cons, List.sum_cons] at *
      omega

structure ConcInv (reps n : Nat) (s : ConcState) : Prop where
  len_eq : s.threads.length = n
  hp_eq : s.hp = max 0 (100 - (totalPerf reps s.threads : Int))
  rem_le : ∀ ph ∈ s.threads, remOf ph ≤ reps
  idle_of_free : s.owner = none → ∀ ph ∈ s.threads, isIdle ph = true
  mutex : ∀ i j phi phj, i ≠ j → s.threads.get? i = some phi →
      s.threads.get? j = some phj → isIdle phi = false → isIdle phj = false →
      False
  reg_hp : ∀ i r reg, s.threads.get? i = some (.readDone r reg) → reg = s.hp

theorem concInv_init (n reps : Nat) : ConcInv reps n (initConc n reps) := by
  refine ⟨?_, ?_, ?_, ?_, ?_, ?_⟩
  · simp [initConc]
  · have h0 : totalPerf reps (List.replicate n (Phase.idle reps)) = 0 := by
      simp [totalPerf, List.map_replicate, performed]
    simp [initConc, h0]
  · intro ph hph
    have := List.eq_of_mem_replicate hph
    subst this
    simp [remOf]
  · intro _ ph hph
    have := List.eq_of_mem_replicate hph
    subst this
    rfl
  · intro i j phi phj hij hgi hgj hni hnj
    have hmi : phi ∈ List.replicate n (Phase.idle reps) := List.get?_mem hgi
    have := List.eq_of_mem_replicate hmi
    subst this
    simp [isIdle] at hni
  · intro i r reg hg
    have hm := List.get?_mem hg
    have := List.eq_of_mem_replicate hm
    exact absurd this (by simp)

theorem concInv_step {reps n : Nat} {s s' : ConcState}
    (inv : ConcInv reps n s) (hstep : LockStep s s') : ConcInv reps n s' := by
  obtain ⟨len_eq, hp_eq, rem_le, idle_free, mtx, reg_hp⟩ := inv
  cases hstep with
  | acquire i r hfree hget =>
    have hidle := idle_free hfree
    have hts := totalPerf_set reps s.threads i _ (.locked (r + 1)) hget
    simp only [performed] at hts
    refine ⟨by simpa using len_eq, ?_, ?_, ?_, ?_, ?_⟩
    · show s.hp = _
      have hT : totalPerf reps (s.threads.set i (Phase.locked (r + 1)))
          = totalPerf reps s.threads := by omega
      dsimp only
      rw [hT]
      exact hp_eq
    · intro ph hph
      rcases List.mem_or_eq_of_mem_set hph with hmem | hrfl
      · exact rem_le ph hmem
      · subst hrfl
        have := rem_le _ (List.get?_mem hget)
        simpa [remOf] using this
    · intro h
      simp at h
    · intro i' j' phi phj hne hgi hgj hni hnj
      rcases eq_or_ne j' i with h1 | h1
      · have hne2 : i ≠ i' := fun h => hne (h ▸ h1.symm)
        rw [List.get?_set_ne _ _ hne2] at hgi
        have := hidle phi (List.get?_mem hgi)
        rw [this] at hni
        cases hni
      · rw [List.get?_set_ne _ _ (Ne.symm h1)] at hgj
        have := hidle phj (List.get?_mem hgj)
        rw [this] at hnj
        cases hnj
    · intro i' r' reg hg
      rcases eq_or_ne i' i with h1 | h1
      · subst h1
        have hlt : i' < s.threads.length := by
          have := List.get?_eq_some.mp hget
          exact this.1
        rw [List.get?_set_eq_of_lt _ hlt] at hg
        cases hg
      · rw [List.get?_set_ne _ _ (Ne.symm h1)] at hg
        have := hidle _ (List.get?_mem hg)
        cases this
  | readHp i r hget =>
    have hts := totalPerf_set reps s.threads i _ (.readDone r s.hp) hget
    simp only [performed] at hts
    have hnotfree : s.owner ≠ none := by
      intro h
      have := idle_free h _ (List.get?_mem hget)
      cases this
    refine ⟨by simpa using len_eq, ?_, ?_, ?_, ?_, ?_⟩
    · show s.hp = _
      have hT : totalPerf reps (s.threads.set i (Phase.readDone r s.hp))
          = totalPerf reps s.threads := by omega
      dsimp only
      rw [hT]
      exact hp_eq
    · intro ph hph
      rcases List.mem_or_eq_of_mem_set hph with hmem | hrfl
      · exact rem_le ph hmem
      · subst hrfl
        simpa [remOf] using rem_le _ (List.get?_mem hget)
    · intro h
      exact absurd h hnotfree
    · intro i' j' phi phj hne hgi hgj hni hnj
      rcases eq_or_ne i' i with h1 | h1
      · have hij : i ≠ j' := by omega
        rw [List.get?_set_ne _ _ hij] at hgj
        have hgi2 : s.threads.get? i' = some (Phase.locked r) := by
          rw [h1]; exact hget
        exact mtx i' j' (.locked r) phj hne hgi2 hgj rfl hnj
      · rw [List.get?_set_ne _ _ (Ne.symm h1)] at hgi
        rcases eq_or_ne j' i with h2 | h2
        · have hgj2 : s.threads.get? j' = some (Phase.locked r) := by
            rw [h2]; exact hget
          exact mtx i' j' phi (.locked r) hne hgi hgj2 hni rfl
        · rw [List.get?_set_ne _ _ (Ne.symm h2)] at hgj
          exact mtx i' j' phi phj hne hgi hgj hni hnj
    · intro i' r' reg hg
      rcases eq_or_ne i' i with h1 | h1
      · subst h1
        have hlt : i' < s.threads.length := (List.get?_eq_some.mp hget).1
        rw [List.get?_set_eq_of_lt _ hlt] at hg
        injection hg with hg
        cases hg
        rfl
      · rw [List.get?_set_ne _ _ (Ne.symm h1)] at hg
        exact absurd (mtx i' i _ _ h1 hg hget rfl rfl) (fun h => h)
  | writeHp i r reg hget =>
    have hreg : reg = s.hp := reg_hp i r reg hget
    have hts := totalPerf_set reps s.threads i _ (.wroteDone r) hget
    simp only [performed] at hts
    refine ⟨by simpa using len_eq, ?_, ?_, ?_, ?_, ?_⟩
    · show apply_damage reg 1 = _
      have h2 : totalPerf reps (s.threads.set i (Phase.wroteDone r))
          = totalPerf reps s.threads + 1 := by omega
      dsimp only
      rw [h2, hreg, hp_eq]
      simp only [apply_damage]
      push_cast
      omega
    · intro ph hph
      rcases List.mem_or_eq_of_mem_set hph with hmem | hrfl
      · exact rem_le ph hmem
      · subst hrfl
        simpa [remOf] using rem_le _ (List.get?_mem hget)
    · intro h
      exfalso
      have := idle_free h _ (List.get?_mem hget)
      cases this
    · intro i' j' phi phj hne hgi hgj hni hnj
      rcases eq_or_ne i' i with h1 | h1
      · have hij : i ≠ j' := by omega
        rw [List.get?_set_ne _ _ hij] at hgj
        have hgi2 : s.threads.get? i' = some (Phase.readDone r reg) := by
          rw [h1]; exact hget
        exact mtx i' j' (.readDone r reg) phj hne hgi2 hgj rfl hnj
      · rw [List.get?_set_ne _ _ (Ne.symm h1)] at hgi
        rcases eq_or_ne j' i with h2 | h2
        · have hgj2 : s.threads.get? j' = some (Phase.readDone r reg) := by
            rw [h2]; exact hget
          exact mtx i' j' phi (.readDone r reg) hne hgi hgj2 hni rfl
        · rw [List.get?_set_ne _ _ (Ne.symm h2)] at hgj
          exact mtx i' j' phi phj hne hgi hgj hni hnj
    · intro i' r' reg2 hg
      rcases eq_or_ne i' i with h1 | h1
      · subst h1
        have hlt : i' < s.threads.length := (List.get?_eq_some.mp hget).1
        rw [List.get?_set_eq_of_lt _ hlt] at hg
        cases hg
      · rw [List.get?_set_ne _ _ (Ne.symm h1)] at hg
        exact absurd (mtx i' i _ _ h1 hg hget rfl rfl) (fun h => h)
  | release i r hget =>
    have hr1 : r + 1 ≤ reps := by
      simpa [remOf] using rem_le _ (List.get?_mem hget)
    have hts := totalPerf_set reps s.threads i _ (.idle r) hget
    simp only [performed] at hts
    refine ⟨by simpa using len_eq, ?_, ?_, ?_, ?_, ?_⟩
    · show s.hp = _
      have hT : totalPerf reps (s.threads.set i (Phase.idle r))
          = totalPerf reps s.threads := by omega
      dsimp only
      rw [hT]
      exact hp_eq
    · intro ph hph
      rcases List.mem_or_eq_of_mem_set hph with hmem | hrfl
      · exact rem_le ph hmem
      · subst hrfl
        simp [remOf]
        omega
    · intro _ ph hph
      obtain ⟨j, hj⟩ := List.get?_of_mem hph
      rcases eq_or_ne j i with h1 | h1
      · have hlt : i < s.threads.length := (List.get?_eq_some.mp hget).1
        rw [h1] at hj
        rw [List.get?_set_eq_of_lt _ hlt] at hj
        injection hj with hj
        rw [← hj]
        rfl
      · rw [List.get?_set_ne _ _ (Ne.symm h1)] at hj
        by_contra hni
        have hni2 : isIdle ph = false := by
          cases hh : isIdle ph
          · rfl
          · exact absurd hh hni
        exact mtx j i ph _ h1 hj hget hni2 rfl
    · intro i' j' phi phj hne hgi hgj hni hnj
      rcases eq_or_ne i' i with h1 | h1
      · have hlt : i < s.threads.length := (List.get?_eq_some.mp hget).1
        rw [h1] at hgi
        rw [List.get?_set_eq_of_lt _ hlt] at hgi
        injection hgi with hgi
        rw [← hgi] at hni
        cases hni
      · rw [List.get?_set_ne _ _ (Ne.symm h1)] at hgi
        rcases eq_or_ne j' i with h2 | h2
        · have hgj2 : s.threads.get? j' = some (Phase.wroteDone (r + 1)) := by
            rw [h2]; exact hget
          exact mtx i' j' phi (.wroteDone (r + 1)) hne hgi hgj2 hni rfl
        · rw [List.get?_set_ne _ _ (Ne.symm h2)] at hgj
          exact mtx i' j' phi phj hne hgi hgj hni hnj
    · intro i' r' reg hg
      rcases eq_or_ne i' i with h1 | h1
      · subst h1
        have hlt : i' < s.threads.length := (List.get?_eq_some.mp hget).1
        rw [List.get?_set_eq_of_lt _ hlt] at hg
        cases hg
      · rw [List.get?_set_ne _ _ (Ne.symm h1)] at hg
        exact absurd (mtx i' i _ _ h1 hg hget rfl rfl) (fun h => h)

theorem concInv_reach {reps n : Nat} {s : ConcState}
    (h : Relation.ReflTransGen LockStep (initConc n reps) s) :
    ConcInv reps n s := by
  induction h with
  | refl => exact concInv_init n reps
  | tail _ hstep ih => exact concInv_step ih hstep

theorem totalPerf_all_done (reps : Nat) (l : List Phase)
    (h : ∀ ph ∈ l, ph = Phase.idle 0) :
    totalPerf reps l = l.length * reps := by
  induction l with
  | nil => simp [totalPerf]
  | cons a t ih =>
    have ha := h a (List.mem_cons_self a t)
    subst ha
    simp only [totalPerf, List.map_cons, List.sum_cons, List.length_cons]
    rw [show ((t.map (performed reps)).sum = totalPerf reps t) from rfl,
      ih (fun ph hph => h ph (List.mem_cons_of_mem _ hph))]
    simp [performed]
    ring

/-! ## Helper lemmas about stripping and truncation -/

theorem string_data_append (a b : String) : (a ++ b).data = a.data ++ b.data :=
  rfl

theorem dropWhile_eq_self_of_head {α} (p : α → Bool) (l : List α)
    (h : ∀ c, l.head? = some c → p c = false) : l.dropWhile p = l := by
  cases l with
  | nil => rfl
  | cons a t =>
    rw [List.dropWhile_cons, h a rfl]
    simp

theorem dropWhile_head_false {α} (p : α → Bool) (l : List α) (a : α) (t : List α)
    (h : l.dropWhile p = a :: t) : p a = false := by
  induction l with
  | nil => cases h
  | cons b u ih =>
    rw [List.dropWhile_cons] at h
    by_cases hb : p b
    · rw [if_pos hb] at h
      exact ih h
    · rw [if_neg hb] at h
      injection h with h1 _
      rw [← h1]
      exact Bool.eq_false_iff.mpr hb

theorem getLast?_dropWhile {α} (p : α → Bool) (l : List α)
    (h : l.dropWhile p ≠ []) : (l.dropWhile p).getLast? = l.getLast? := by
  induction l with
  | nil => rfl
  | cons a t ih =>
    rw [List.dropWhile_cons]
    by_cases ha : p a
    · rw [if_pos ha]
      rw [List.dropWhile_cons, if_pos ha] at h
      have ht : t ≠ [] := by
        intro h0
        rw [h0] at h
        exact h rfl
      rw [ih h]
      cases t with
      | nil => exact absurd rfl ht
      | cons b u => rw [List.getLast?_cons_cons]
    · rw [if_neg ha]

theorem pyStripList_eq_self (l : List Char)
    (hf : ∀ c, l.head? = some c → isPySpace c = false)
    (hb : ∀ c, l.getLast? = some c → isPySpace c = false) :
    pyStripList l = l := by
  unfold pyStripList
  rw [dropWhile_eq_self_of_head _ _ hf]
  rw [dropWhile_eq_self_of_head _ _ (fun c hc => hb c ((List.head?_reverse l) ▸ hc))]
  exact List.reverse_reverse l

theorem pyStripList_head_not_space (l : List Char) (h : pyStripList l ≠ []) :
    ∃ a t, pyStripList l = a :: t ∧ isPySpace a = false := by
  unfold pyStripList at *
  set A := l.dropWhile isPySpace with hA
  set B := A.reverse.dropWhile isPySpace with hB
  have hBne : B ≠ [] := by
    intro h0
    rw [h0] at h
    exact h rfl
  cases hs : B.reverse with
  | nil => exact absurd hs h
  | cons a t =>
    refine ⟨a, t, by rw [← hs], ?_⟩
    have h1 : B.getLast? = A.reverse.getLast? := getLast?_dropWhile _ _ hBne
    have h2 : A.reverse.getLast? = A.head? := List.getLast?_reverse A
    have h3 : B.reverse.head? = B.getLast? := List.head?_reverse B
    have h4 : B.reverse.head? = some a := by rw [hs]; rfl
    have h5 : A.head? = some a := by rw [← h2, ← h1, ← h3, h4]
    cases hA2 : A with
    | nil => rw [hA2] at h5; cases h5
    | cons b u =>
      rw [hA2] at h5
      injection h5 with h5
      rw [← h5]
      exact dropWhile_head_false isPySpace l b u (by rw [← hA2])

theorem pyStripList_ne_nil_of_mem (l : List Char) (c : Char) (hc : c ∈ l)
    (hns : isPySpace c = false) : pyStripList l ≠ [] := by
  intro h0
  unfold pyStripList at h0
  have hB : (l.dropWhile isPySpace).reverse.dropWhile isPySpace = [] := by
    have := congrArg List.reverse h0
    simpa using this
  have hAll : ∀ x ∈ (l.dropWhile isPySpace).reverse, isPySpace x = true :=
    List.dropWhile_eq_nil_iff.mp hB
  have hcA : c ∈ l.dropWhile isPySpace := by
    have hsplit := List.takeWhile_append_dropWhile (p := isPySpace) (l := l)
    rcases List.mem_append.mp (by rw [hsplit]; exact hc) with h1 | h1
    · exact absurd (List.mem_takeWhile_imp h1) (by simp [hns])
    · exact h1
  have := hAll c (List.mem_reverse.mpr hcA)
  rw [hns] at this
  cases this

theorem rfindWithin_bound (cs pat : List Char) (stop bp : Nat)
    (h : rfindWithin cs pat stop = some bp) : bp + pat.length ≤ stop := by
  unfold rfindWithin at h
  have hmem := List.mem_of_mem_getLast? h
  have := (List.mem_filter.mp hmem).2
  simp only [Bool.and_eq_true, decide_eq_true_eq] at this
  exact this.1

theorem speakTruncate_length_le (t3 : List Char) :
    (speakTruncate t3).length ≤ 300 := by
  unfold speakTruncate
  by_cases hlong : 300 < t3.length
  · rw [if_pos hlong]
    cases hfind : rfindWithin t3 ['.', ' '] 300 with
    | none =>
      simp only [List.length_append, List.length_take, List.length_cons,
        List.length_nil]
      omega
    | some bp =>
      dsimp only
      have hbp : bp + 2 ≤ 300 := by
        simpa using rfindWithin_bound t3 ['.', ' '] 300 bp hfind
      by_cases hcut : 100 < bp
      · rw [if_pos hcut]
        simp only [List.length_take]
        omega
      · rw [if_neg hcut]
        simp only [List.length_append, List.length_take, List.length_cons,
          List.length_nil]
        omega
  · rw [if_neg hlong]
    omega

theorem speakTruncate_props (t3 : List Char) (a : Char) (t : List Char)
    (ht : t3 = a :: t) (ha : isPySpace a = false) :
    speakTruncate t3 ≠ [] ∧ pyStripList (speakTruncate t3) ≠ [] := by
  unfold speakTruncate
  by_cases hlong : 300 < t3.length
  · rw [if_pos hlong]
    cases hfind : rfindWithin t3 ['.', ' '] 300 with
    | none =>
      dsimp only
      refine ⟨by simp, ?_⟩
      exact pyStripList_ne_nil_of_mem _ '.' (by simp) (by decide)
    | some bp =>
      dsimp only
      by_cases hcut : 100 < bp
      · rw [if_pos hcut]
        subst ht
        rw [List.take_succ_cons]
        refine ⟨by simp, ?_⟩
        exact pyStripList_ne_nil_of_mem _ a (List.mem_cons_self a _) ha
      · rw [if_neg hcut]
        refine ⟨by simp, ?_⟩
        exact pyStripList_ne_nil_of_mem _ '.' (by simp) (by decide)
  · rw [if_neg hlong]
    subst ht
    refine ⟨by simp, ?_⟩
    exact pyStripList_ne_nil_of_mem _ a (List.mem_cons_self a t) ha

theorem speakFilter_some (t1 t3 : List Char) (h : speakFilter t1 = some t3) :
    t3 = pyStripList (fenceCleaned t1) ∧ t3 ≠ [] := by
  unfold speakFilter at h
  split_ifs at h with h1 h2 h3 h4 h5
  injection h with h
  refine ⟨h.symm, ?_⟩
  rw [← h]
  intro h0
  exact h3 (by simp [h0])

theorem extract_none_of_fence_prefix (s : String)
    (h : fence.isPrefixOf (pyStripList s.data) = true) :
    extract_speakable_text s = none := by
  by_cases h0 : s.data.isEmpty || (pyStripList s.data).isEmpty
  · unfold extract_speakable_text
    rw [if_pos h0]
  · unfold extract_speakable_text
    rw [if_neg h0]
    have hsf : speakFilter (pyStripList s.data) = none := by
      unfold speakFilter
      rw [if_pos (by simp [h])]
    rw [hsf]

theorem maxKeyAux_spec (best : String × Int) (l : List (String × Int)) :
    (maxKeyAux best l = best ∨ maxKeyAux best l ∈ l)
    ∧ best.2 ≤ (maxKeyAux best l).2
    ∧ ∀ p ∈ l, p.2 ≤ (maxKeyAux best l).2 := by
  induction l generalizing best with
  | nil => simp [maxKeyAux]
  | cons a t ih =>
    by_cases h : best.2 < a.2
    · obtain ⟨h1, h2, h3⟩ := ih a
      simp only [maxKeyAux, if_pos h]
      refine ⟨Or.inr ?_, le_trans (le_of_lt h) h2, ?_⟩
      · rcases h1 with h1 | h1
        · rw [h1]; exact List.mem_cons_self a t
        · exact List.mem_cons_of_mem a h1
      · intro p hp
        rcases List.mem_cons.mp hp with hp | hp
        · rw [hp]; exact h2
        · exact h3 p hp
    · obtain ⟨h1, h2, h3⟩ := ih best
      simp only [maxKeyAux, if_neg h]
      refine ⟨?_, h2, ?_⟩
      · rcases h1 with h1 | h1
        · exact Or.inl h1
        · exact Or.inr (List.mem_cons_of_mem a h1)
      · intro p hp
        rcases List.mem_cons.mp hp with hp | hp
        · rw [hp]; exact le_trans (not_lt.mp h) h2
        · exact h3 p hp

/-- C5: winner selection is a single read of all health values returning a
name that holds the maximum health (first in the deterministic iteration
order on ties) and recording it in the winner field; on the scenario
`[100, 80, 95]` it returns the name holding 100. -/
theorem declare_winner_picks_max :
    (∀ st : ArenaState, st.hp ≠ [] →
      ∃ n v, declare_winner st = (some n, { st with winner := some n })
        ∧ (n, v) ∈ st.hp ∧ ∀ p ∈ st.hp, p.2 ≤ v)
    ∧ declare_winner
        ⟨[("ValleyGirl", 100), ("AnimeFan", 80), ("SurferDude", 95)], none⟩
      = (some "ValleyGirl",
         ⟨[("ValleyGirl", 100), ("AnimeFan", 80), ("SurferDude", 95)],
          some "ValleyGirl"⟩) := by
  constructor
  · intro st h
    match hst : st.hp with
    | [] => exact absurd hst h
    | kv :: rest =>
      obtain ⟨h1, h2, h3⟩ := maxKeyAux_spec kv rest
      refine ⟨(maxKeyAux kv rest).1, (maxKeyAux kv rest).2, ?_, ?_, ?_⟩
      · simp [declare_winner, hst]
      · rw [Prod.mk.eta]
        rcases h1 with h1 | h1
        · rw [h1]; exact List.mem_cons_self kv rest
        · exact List.mem_cons_of_mem kv h1
      · intro p hp
        rcases List.mem_cons.mp hp with hp | hp
        · rw [hp]; exact h2
        · exact h3 p hp
  · rfl

/-- Witness for `declare_winner_picks_max` at the `[100, 80, 95]` scenario. -/
theorem declare_winner_picks_max_witness :
    ((⟨[("ValleyGirl", 100), ("AnimeFan", 80), ("SurferDude", 95)],
        none⟩ : ArenaState).hp ≠ [])
    ∧ ∃ n v, declare_winner
          ⟨[("ValleyGirl", 100), ("AnimeFan", 80), ("SurferDude", 95)], none⟩
        = (some n,
           { (⟨[("ValleyGirl", 100), ("AnimeFan", 80), ("SurferDude", 95)],
              none⟩ : ArenaState) with winner := some n })
        ∧ (n, v) ∈ (⟨[("ValleyGirl", 100), ("AnimeFan", 80),
            ("SurferDude", 95)], none⟩ : ArenaState).hp
        ∧ ∀ p ∈ (⟨[("ValleyGirl", 100), ("AnimeFan", 80),
            ("SurferDude", 95)], none⟩ : ArenaState).hp, p.2 ≤ v :=
  ⟨by decide,
   declare_winner_picks_max.1
     ⟨[("ValleyGirl", 100), ("AnimeFan", 80), ("SurferDude", 95)], none⟩
     (by decide)⟩

/-- C4 counterexample: with health 10, applying 100 damage and then restoring
the same 100 yields 100, not the prior value 10 (nor 10 clamped): the
equal-magnitude damage/restore round trip fails when damage exceeds current
health. -/
theorem damage_restore_roundtrip_counterexample :
    apply_damage 10 100 = 0 ∧ restore_hp (apply_damage 10 100) 100 = 100
      ∧ restore_hp (apply_damage 10 100) 100 ≠ 10 := by
  decide

/-- C4 amended: the equal-magnitude round trip restores the prior value for
health in [0, 100] provided the damage does not exceed the current health;
damage is floored at 0 (100 damage on 10 health yields 0, not −90), restore is
capped at 100, and 100 health minus 30 damage plus 5 restore is 75. -/
theorem damage_restore_clamped :
    (∀ h d : Int, d ≤ h → h ≤ 100 → restore_hp (apply_damage h d) d = h)
    ∧ (∀ h d : Int, 0 ≤ apply_damage h d)
    ∧ (∀ h r : Int, restore_hp h r ≤ 100)
    ∧ restore_hp (apply_damage 100 30) 5 = 75
    ∧ apply_damage 10 100 = 0 := by
  refine ⟨?_, ?_, ?_, by decide, by decide⟩
  · intro h d h1 h2
    unfold apply_damage restore_hp
    omega
  · intro h d
    exact le_max_left 0 _
  · intro h r
    exact min_le_left 100 _

/-- Witness for `damage_restore_clamped` at health 100 and damage 30. -/
theorem damage_restore_clamped_witness :
    ((30 : Int) ≤ 100 ∧ (100 : Int) ≤ 100)
    ∧ restore_hp (apply_damage 100 30) 30 = 100 :=
  ⟨⟨by decide, by decide⟩,
   damage_restore_clamped.1 100 30 (by decide) (by decide)⟩

/-- C6: a scoring response that parses as an integer is clamped into 1–10 and
tripled, so a hit deals between 3 and 30 damage; a response that does not
parse as an integer — including the empty string `_llm_generate` returns when
the external call throws — yields the default damage 9. -/
theorem score_damage_clamps_and_defaults :
    (∀ out n, pyIntOfStr (pyStrip out) = some n →
        score_damage out = max 1 (min 10 n) * 3
        ∧ 3 ≤ score_damage out ∧ score_damage out ≤ 30)
    ∧ (∀ out, pyIntOfStr (pyStrip out) = none → score_damage out = 9)
    ∧ score_damage (llm_generate none) = 9 := by
  refine ⟨?_, ?_, by decide⟩
  · intro out n h
    unfold score_damage
    rw [h]
    dsimp only
    refine ⟨rfl, ?_, ?_⟩ <;> omega
  · intro out h
    unfold score_damage
    rw [h]

/-- Witness for `score_damage_clamps_and_defaults` on the response `"7"`. -/
theorem score_damage_clamps_and_defaults_witness :
    pyIntOfStr (pyStrip "7") = some 7
    ∧ (score_damage "7" = max 1 (min 10 7) * 3
        ∧ 3 ≤ score_damage "7" ∧ score_damage "7" ≤ 30) :=
  ⟨by decide, score_damage_clamps_and_defaults.1 "7" 7 (by decide)⟩

/-- C10: `_generate_critique` returns `""` exactly when critic and creator
coincide; for a distinct pair it is never empty, and when the generation call
came back empty (or all quotes) the fixed fallback mentioning the creator's
name is returned. -/
theorem generate_critique_nonempty_fallback :
    (∀ c cr out : String, c = cr → generate_critique c cr out = "")
    ∧ (∀ c cr out : String, c ≠ cr →
        generate_critique c cr out ≠ ""
        ∧ (pyStripChars out ['"', '\''] = "" →
            generate_critique c cr out = cr ++ "'s work is mid.")) := by
  constructor
  · intro c cr out h
    simp [generate_critique, h]
  · intro c cr out h
    refine ⟨?_, ?_⟩
    · unfold generate_critique
      rw [if_neg h]
      by_cases hs : pyStripChars out ['"', '\''] = ""
      · rw [if_pos hs]
        intro hcontra
        have hd := congrArg String.data hcontra
        rw [string_data_append] at hd
        rcases List.append_eq_nil.mp hd with ⟨_, h2⟩
        exact absurd h2 (by decide)
      · rw [if_neg hs]
        exact hs
    · intro hs
      unfold generate_critique
      rw [if_neg h, if_pos hs]

/-- Witness for `generate_critique_nonempty_fallback` with distinct names and
an empty generation result. -/
theorem generate_critique_nonempty_fallback_witness :
    ("AnimeFan" ≠ "ValleyGirl")
    ∧ (generate_critique "AnimeFan" "ValleyGirl" "" ≠ ""
        ∧ (pyStripChars "" ['"', '\''] = "" →
            generate_critique "AnimeFan" "ValleyGirl" ""
              = "ValleyGirl" ++ "'s work is mid.")) :=
  ⟨by decide,
   generate_critique_nonempty_fallback.2 "AnimeFan" "ValleyGirl" "" (by decide)⟩

/-- C7 counterexample: `battle_royale.py` invoked with no arguments prints its
usage message but exits with status 0, which is not a non-zero status. -/
theorem battle_usage_exit_zero_counterexample :
    battle_royale_main ["battle_royale.py"] = .usageExit battleUsageLines 0
    ∧ exitCodeOf (battle_royale_main ["battle_royale.py"]) = some 0 := by
  constructor <;> rfl

/-- C7 amended: with no arguments, `speaking_claude.py` prints a usage message
and exits with status 1 (non-zero), while `battle_royale.py` prints a usage
message but exits with status 0. -/
theorem usage_exit_codes :
    (∀ argv : List String, argv.length < 2 →
        speaking_claude_main argv = .usageExit speakingUsageLines 1)
    ∧ (∀ argv : List String, argv.length < 2 →
        battle_royale_main argv = .usageExit battleUsageLines 0) := by
  constructor
  · intro argv h
    unfold speaking_claude_main
    rw [if_pos h]
  · intro argv h
    unfold battle_royale_main
    rw [if_pos h]

/-- Witness for `usage_exit_codes` at an argv holding only the script name. -/
theorem usage_exit_codes_witness :
    (["speaking_claude.py"].length < 2)
    ∧ speaking_claude_main ["speaking_claude.py"]
        = .usageExit speakingUsageLines 1 :=
  ⟨by decide, usage_exit_codes.1 ["speaking_claude.py"] (by decide)⟩

/-- C9: on every input string, `_extract_speakable_text` — a total function,
no branch can raise (the ratio division is guarded by the emptiness checks) —
returns `None` or a non-empty string of at most 300 characters that is not
entirely whitespace. -/
theorem extract_speakable_text_bounds (s : String) :
    extract_speakable_text s = none
      ∨ ∃ t : String, extract_speakable_text s = some t
          ∧ t.data ≠ [] ∧ t.data.length ≤ 300 ∧ pyStripList t.data ≠ [] := by
  by_cases h0 : s.data.isEmpty || (pyStripList s.data).isEmpty
  · left
    unfold extract_speakable_text
    rw [if_pos h0]
  · cases hsf : speakFilter (pyStripList s.data) with
    | none =>
      left
      unfold extract_speakable_text
      rw [if_neg h0, hsf]
    | some t3 =>
      obtain ⟨ht3, hne⟩ := speakFilter_some _ _ hsf
      obtain ⟨a, t, hcons, ha⟩ :=
        pyStripList_head_not_space (fenceCleaned (pyStripList s.data))
          (by rw [← ht3]; exact hne)
      have hcons3 : t3 = a :: t := by rw [ht3, hcons]
      obtain ⟨hne4, hstrip4⟩ := speakTruncate_props t3 a t hcons3 ha
      right
      refine ⟨String.mk (speakTruncate t3), ?_, hne4, ?_, hstrip4⟩
      · unfold extract_speakable_text
        rw [if_neg h0, hsf]
        dsimp only
        rw [if_neg (by simpa [List.isEmpty_iff] using hne4)]
      · exact speakTruncate_length_le t3

/-- The two stream-json lines of the round-trip scenario (claim C1). -/
def scenarioLine1 : String :=
  "\x7b\"type\":\"assistant\",\"message\":\x7b\"content\":[\x7b\"type\":\"text\",\"text\":\"Let's build this. I will start with the layout.\"\x7d]\x7d\x7d"

/-- The second line of the round-trip scenario: a `tool_use` block inside an
`assistant` event. -/
def scenarioLine2 : String :=
  "\x7b\"type\":\"assistant\",\"message\":\x7b\"content\":[\x7b\"type\":\"tool_use\",\"name\":\"Write\"\x7d]\x7d\x7d"

set_option maxRecDepth 8000

/-- C1 counterexample: the two scenario lines do not yield one narration
event with text `"Let's build this."` plus one `"Writing..."` action event —
`_handle_assistant` emits the whole text block without sentence splitting,
and a `tool_use` block inside an `assistant` event is not announced (only a
`content_block_start` event announces a tool). -/
theorem roundtrip_scenario_counterexample :
    ¬ ((((run_lines initState [scenarioLine1, scenarioLine2]).2.1.filter
          (fun ev => ev.content_type == ContentType.narration)).map
            SpeakableContent.text = ["Let's build this."])
        ∧ (((run_lines initState [scenarioLine1, scenarioLine2]).2.1.filter
          (fun ev => ev.content_type == ContentType.action)).map
            SpeakableContent.text = ["Writing..."])) := by
  decide

/-- C1 amended: the two scenario lines yield exactly one narration event
carrying the full unsplit text
`"Let's build this. I will start with the layout."` and no action event. -/
theorem roundtrip_scenario_actual :
    run_lines initState [scenarioLine1, scenarioLine2]
      = (initState,
         [⟨"Let's build this. I will start with the layout.",
           ContentType.narration, 1⟩], none) := by
  rfl

/-- Streaming text deltas for the cross-line fence scenario (claim C2): the
fence opens in this line's text... -/
def fenceLine1 : String :=
  "\x7b\"type\":\"content_block_delta\",\"delta\":\x7b\"type\":\"text_delta\",\"text\":\"Before. ```code one. \"\x7d\x7d"

/-- ... this line's text lies entirely inside the fence ... -/
def fenceLine2 : String :=
  "\x7b\"type\":\"content_block_delta\",\"delta\":\x7b\"type\":\"text_delta\",\"text\":\"still secret. \"\x7d\x7d"

/-- ... and the fence closes in this line's text. -/
def fenceLine3 : String :=
  "\x7b\"type\":\"content_block_delta\",\"delta\":\x7b\"type\":\"text_delta\",\"text\":\"``` After. \"\x7d\x7d"

/-- C2 counterexample: the fence opens on line 1 and closes on line 3, yet
the enclosed content of line 2 is emitted as narration — the parser keeps no
inside-code-block state across lines (`__init__` has no such flag). -/
theorem fence_across_lines_counterexample :
    (⟨"still secret.", ContentType.narration, 1⟩ : SpeakableContent)
      ∈ (run_lines initState [fenceLine1, fenceLine2, fenceLine3]).2.1 := by
  exact List.mem_cons_of_mem _ (List.mem_cons_self _ _)

/-- C2 amended: narration text fully enclosed in a single chunk's code fence
markers is never emitted (any text whose stripped form starts with the fence
yields nothing); but fence tracking is per-chunk, not cross-line: for the
fence opened on line 1 and closed on line 3, the enclosed middle line is
emitted, and the speakable text after the closing fence is swallowed. -/
theorem fence_suppression_per_chunk :
    (∀ mid : String, extract_speakable_text ("```" ++ mid ++ "```") = none)
    ∧ run_lines initState [fenceLine1, fenceLine2, fenceLine3]
        = (initState,
           [⟨"Before.", ContentType.narration, 1⟩,
            ⟨"still secret.", ContentType.narration, 1⟩], none) := by
  constructor
  · intro mid
    apply extract_none_of_fence_prefix
    have hdata : ("```" ++ mid ++ "```").data = fence ++ (mid.data ++ fence) := by
      rw [string_data_append, string_data_append]
      rw [show "```".data = fence from rfl, List.append_assoc]
    rw [hdata]
    have hstrip : pyStripList (fence ++ (mid.data ++ fence))
        = fence ++ (mid.data ++ fence) := by
      apply pyStripList_eq_self
      · intro c hc
        rw [show fence ++ (mid.data ++ fence)
            = '`' :: ('`' :: '`' :: (mid.data ++ fence)) from rfl,
          List.head?_cons] at hc
        injection hc with hc
        rw [← hc]
        decide
      · intro c hc
        have hrw : fence ++ (mid.data ++ fence)
            = (fence ++ (mid.data ++ ['`', '`'])) ++ ['`'] := by
          simp [fence]
        rw [hrw, List.getLast?_concat] at hc
        injection hc with hc
        rw [← hc]
        decide
    rw [hstrip, List.isPrefixOf_iff_prefix]
    exact List.prefix_append fence _
  · rfl

/-- C3 counterexample: the line `"42"` is not a valid structured record (it is
valid JSON but not an object), yet `parse_line` raises `AttributeError` from
`event.get("type")` instead of yielding nothing. -/
theorem parse_line_scalar_counterexample :
    parse_line initState "42" = (initState, [], some PyErr.attributeError) := by
  rfl

/-- C3 amended: every line that strips to empty or fails `json.loads` yields
zero events and raises no error; a line that is valid JSON but not an object
(such as `"42"`) instead raises `AttributeError`. -/
theorem parse_line_drops_unparseable (st : ParserState) (line : String)
    (h : (pyStrip line).data = [] ∨ loads (pyStrip line) = none) :
    parse_line st line = (st, [], none) := by
  simp only [parse_line]
  rcases h with h | h
  · rw [if_pos (by simp [h])]
  · by_cases he : (pyStrip line).data.isEmpty
    · rw [if_pos he]
    · rw [if_neg he, h]

/-- Witness for `parse_line_drops_unparseable` on a non-JSON line. -/
theorem parse_line_drops_unparseable_witness :
    ((pyStrip "not json").data = [] ∨ loads (pyStrip "not json") = none)
    ∧ parse_line initState "not json" = (initState, [], none) :=
  ⟨Or.inr rfl, parse_line_drops_unparseable initState "not json" (Or.inr rfl)⟩

/-- C8: every mutation of the shared health value sits inside the `hp_lock`
critical section, and no interleaving loses an update: any complete schedule
of `n` threads each running `reps` iterations of the locked
`apply_damage(name, 1)` read-modify-write (the claim's instance is
`reps = 1000`) ends with the health exactly `max 0 (100 - n * reps)`. -/
theorem locked_damage_no_lost_updates (n reps : Nat) (s : ConcState)
    (hreach : Relation.ReflTransGen LockStep (initConc n reps) s)
    (hdone : ∀ ph ∈ s.threads, ph = Phase.idle 0) :
    s.hp = max 0 (100 - (n * reps : Int)) := by
  have inv := concInv_reach hreach
  have h1 := inv.hp_eq
  rw [totalPerf_all_done reps s.threads hdone, inv.len_eq] at h1
  rw [h1]
  push_cast
  ring_nf

/-- Witness for `locked_damage_no_lost_updates`: one thread, one iteration,
scheduled acquire–read–write–release. -/
theorem locked_damage_no_lost_updates_witness :
    Relation.ReflTransGen LockStep (initConc 1 1)
        ⟨99, none, [Phase.idle 0]⟩
    ∧ (∀ ph ∈ (⟨99, none, [Phase.idle 0]⟩ : ConcState).threads,
        ph = Phase.idle 0)
    ∧ (⟨99, none, [Phase.idle 0]⟩ : ConcState).hp
        = max 0 (100 - (1 * 1 : Int)) := by
  have t1 : LockStep (initConc 1 1) ⟨100, some 0, [Phase.locked 1]⟩ :=
    LockStep.acquire (initConc 1 1) 0 0 rfl rfl
  have t2 : LockStep ⟨100, some 0, [Phase.locked 1]⟩
      ⟨100, some 0, [Phase.readDone 1 100]⟩ :=
    LockStep.readHp _ 0 1 rfl
  have t3 : LockStep ⟨100, some 0, [Phase.readDone 1 100]⟩
      ⟨99, some 0, [Phase.wroteDone 1]⟩ := by
    have h := LockStep.writeHp ⟨100, some 0, [Phase.readDone 1 100]⟩ 0 1 100 rfl
    have happ : apply_damage 100 1 = 99 := by decide
    rw [happ] at h
    exact h
  have t4 : LockStep ⟨99, some 0, [Phase.wroteDone 1]⟩
      ⟨99, none, [Phase.idle 0]⟩ :=
    LockStep.release _ 0 0 rfl
  have chain : Relation.ReflTransGen LockStep (initConc 1 1)
      ⟨99, none, [Phase.idle 0]⟩ :=
    Relation.ReflTransGen.tail
      (Relation.ReflTransGen.tail
        (Relation.ReflTransGen.tail
          (Relation.ReflTransGen.tail Relation.ReflTransGen.refl t1) t2) t3) t4
  refine ⟨chain, ?_, locked_damage_no_lost_updates 1 1 _ chain ?_⟩
  · intro ph hph
    simpa using hph
  · intro ph hph
    simpa using hph
